import Mathlib

/-!
Verification of the BoolODE simulation-and-sampling engine
(src/BoolODE/run_experiment.py) against its specification.

The development shallowly embeds the parts of run_experiment.py that the
claims are about:

* the degenerate-trajectory retry loop of simulateAndSample
  (lines 332-361), modelled by a fuel-indexed loop over the
  per-attempt maximal transcript value;
* the snapshot-window construction of simulateAndSample
  (lines 386-402): numpy round-half-to-even applied to the
  linspace boundary points, the half-open randint windows, and the
  emitted column names;
* the single-timepoint sampling branch (lines 364-370);
* the initial-condition vector construction of Experiment
  (lines 69-96), including substring tests, Python str.replace,
  the reverse variable map, and the override passes;
* the output-path construction of simulateAndSample
  (lines 335 and 383, 405), including os.path.join semantics;
* the control flow of Experiment relevant to the NameError bugs and
  the clustering gate (lines 98-103, 137-149, 185-193, 205-219).

Real numbers computed by numpy are modelled as rationals; machine
floats are not modelled.  Python exceptions are modelled as error
values.
-/

namespace BoolODE

/-- Viability threshold of the degeneracy check: the literal
0.1 * x_max from line 359 of simulateAndSample, with 0.1 modelled as
the rational 1/10. -/
def degeneracyThreshold (x_max : ℚ) : ℚ := 1 / 10 * x_max

/-- The retry loop of simulateAndSample (lines 344-361).  Each
iteration adds 1000 to the seed (line 345), obtains an initial
condition and integrates the model with that seed (lines 346-351,
external simulator code, abstracted as the function trajMax giving
the maximal transcript value P[rnaIndex, :].max() of the attempt, a
pure function of the seed per the integrator determinism contract),
and accepts unless the maximum is below the threshold (lines
352-360).  The fuel argument bounds the number of iterations that
are unrolled; the Python loop corresponds to unlimited fuel, and a
return value of some seed means the loop exits with that accepted
seed.  Returns none when fuel runs out before acceptance. -/
def retryLoop (trajMax : ℕ → ℚ) (x_max : ℚ) : ℕ → ℕ → Option ℕ
  | _, 0 => none
  | seed, fuel + 1 =>
    let seed1 := seed + 1000
    if trajMax seed1 < degeneracyThreshold x_max then
      retryLoop trajMax x_max seed1 fuel
    else
      some seed1

/-- Round half to even on rationals, the rounding mode of numpy round
used on the snapshot boundary points (line 392). -/
def roundHalfEven (q : ℚ) : ℤ :=
  if q - ⌊q⌋ < 1 / 2 then ⌊q⌋
  else if 1 / 2 < q - ⌊q⌋ then ⌊q⌋ + 1
  else if ⌊q⌋ % 2 = 0 then ⌊q⌋ else ⌊q⌋ + 1

/-- Boundary point i of the snapshot windows (line 392):
np.round(np.linspace(0, steps, n+1)).astype(int) evaluated at index
i, where linspace point i equals i * steps / n. -/
def snapshotLimits (steps n : ℕ) (i : ℕ) : ℤ :=
  roundHalfEven ((i : ℚ) * (steps : ℚ) / (n : ℚ))

/-- Membership of integer time index t in snapshot window i, the
half-open range sampled by np.random.randint(limits[i], limits[i+1])
on line 394. -/
def inWindow (steps n : ℕ) (i : ℕ) (t : ℤ) : Prop :=
  snapshotLimits steps n i ≤ t ∧ t < snapshotLimits steps n (i + 1)

/-- The list of drawn snapshot indices (line 394), one randint draw
per window; the random draws are abstracted as the function draw from
window number to drawn index. -/
def snapshotIndices (draw : ℕ → ℕ) (n : ℕ) : List ℕ :=
  (List.range n).map draw

/-- Column names of the snapshot table (line 400). -/
def snapshotColNames (cellid n : ℕ) : List String :=
  (List.range n).map (fun i => "E" ++ toString cellid ++ "_t" ++ toString i)

/-- The emitted snapshot table P[rnaIndex, :][:, idxs] (line 401)
viewed as a list of columns, one per drawn index, each column holding
the transcript values at that index.  P g t is the value of variable
g at time index t. -/
def snapshotSubsetCols (P : ℕ → ℕ → ℚ) (rnaIndex : List ℕ) (idxs : List ℕ) :
    List (List ℚ) :=
  idxs.map (fun t => rnaIndex.map (fun g => P g t))

/-- The selected time indices of the single-timepoint branch
(line 367): list(range(1, T)) for a trajectory with T time points. -/
def timePoints (T : ℕ) : List ℕ := List.range' 1 (T - 1)

/-- Column names of the single-timepoint table (line 369). -/
def singleTimepointColNames (cellid T : ℕ) : List String :=
  (timePoints T).map (fun t => "E" ++ toString cellid ++ "_" ++ toString t)

/-- Substring test on character lists, modelling the Python
membership test pat in s on strings. -/
def infixCheck (pat : List Char) : List Char → Bool
  | [] => pat.isEmpty
  | c :: cs => pat.isPrefixOf (c :: cs) || infixCheck pat cs

/-- Python substring containment pat in s. -/
def containsSub (pat s : String) : Bool := infixCheck pat.toList s.toList

/-- Fuel-indexed worker for removeAll; consumes at least one source
character per unit of fuel, so fuel equal to the source length
suffices. -/
def removeAllFuel (pat : List Char) : ℕ → List Char → List Char
  | _, [] => []
  | 0, l => l
  | fuel + 1, c :: cs =>
    if pat ≠ [] ∧ pat.isPrefixOf (c :: cs) then
      removeAllFuel pat fuel ((c :: cs).drop pat.length)
    else
      c :: removeAllFuel pat fuel cs

/-- Python str.replace(pat, empty string): delete every
non-overlapping occurrence of pat from s, scanning left to right;
used on line 75 as k.replace(p underscore, empty). -/
def removeAll (pat s : String) : String :=
  String.mk (removeAllFuel pat.toList s.toList.length s.toList)

/-- The base steady-state vector ss of Experiment (lines 69-79):
starts as zeros, then entry i becomes 1.0 when the variable name
contains the substring x underscore, else 20.0 when it contains
p underscore and its name with p underscore removed is in the protein
list. -/
def baseSS (varmapper proteinlist : List String) : List ℚ :=
  varmapper.map fun k =>
    if containsSub "x_" k then 1
    else if containsSub "p_" k then
      if removeAll "p_" k ∈ proteinlist then 20 else 0
    else 0

/-- Index of the last occurrence of a name in the variable list,
modelling the reverse map revvarmapper built on line 65 as a Python
dict comprehension, where a later index overwrites an earlier one for
a duplicated name; none models a KeyError lookup. -/
def revIdx : List String → String → Option ℕ
  | [], _ => none
  | k :: ks, name =>
    match revIdx ks name with
    | some j => some (j + 1)
    | none => if k = name then some 0 else none

/-- Default initial value 0.01 used for species absent from the
override map (lines 91 and 96). -/
def icsDefault : ℚ := 1 / 100

/-- One override loop over a species list (lines 87-91 for proteins
with prefix p underscore, lines 92-96 for genes with prefix
x underscore): for each name, write its override value (or the 0.01
default) at the reverse-map index of prefix ++ name; a failed lookup
models the KeyError Python would raise. -/
def setSpecies (varmapper : List String) (pre : String) (names : List String)
    (icsmap : String → Option ℚ) (ss : List ℚ) : Option (List ℚ) :=
  names.foldlM
    (fun acc nm =>
      (revIdx varmapper (pre ++ nm)).map fun i =>
        acc.set i ((icsmap nm).getD icsDefault))
    ss

/-- One iteration of the outer loop over varmapper (lines 86-96):
the protein loop followed by the gene loop. -/
def icsPass (varmapper proteinlist genelist : List String)
    (icsmap : String → Option ℚ) (ss : List ℚ) : Option (List ℚ) :=
  (setSpecies varmapper "p_" proteinlist icsmap ss).bind
    (setSpecies varmapper "x_" genelist icsmap)

/-- The full override application (lines 86-96): the inner loops are
repeated once per entry of varmapper because the outer loop variable
is unused in the loop body. -/
def applyIcs (varmapper proteinlist genelist : List String)
    (icsmap : String → Option ℚ) (ss : List ℚ) : Option (List ℚ) :=
  varmapper.foldlM (fun acc _ => icsPass varmapper proteinlist genelist icsmap acc) ss

/-- The initial-condition base vector ss built by Experiment
(lines 69-96).  icsEmpty models icsDF.empty; icsmap models the
override dictionary parsed from the first row of icsDF, giving some
value for the named genes/proteins and none otherwise. -/
def buildSS (varmapper proteinlist genelist : List String) (icsEmpty : Bool)
    (icsmap : String → Option ℚ) : Option (List ℚ) :=
  if icsEmpty then some (baseSS varmapper proteinlist)
  else applyIcs varmapper proteinlist genelist icsmap (baseSS varmapper proteinlist)

/-- The os.path.join of two path components for a non-absolute,
non-empty second component: inserts a slash separator unless the
first component is empty or already ends in a slash. -/
def ospathJoin (a b : String) : String :=
  if a = "" then b
  else if a.data.getLast? = some '/' then a ++ b
  else a ++ "/" ++ b

/-- The simulations output directory computed on line 335:
os.path.join(outPrefix, simulations). -/
def simulationsDir (outPrefix : String) : String :=
  ospathJoin outPrefix "simulations"

/-- The path of the extra sampled single-cell file written on
line 383: plain string concatenation of the simulations directory
with E, the cell id and -cell.csv, with no separator in between. -/
def sampledCellFilePath (outPrefix : String) (cellid : ℕ) : String :=
  simulationsDir outPrefix ++ "E" ++ toString cellid ++ "-cell.csv"

/-- The path of the per-cell result file written on line 405:
os.path.join of the simulations directory and the file name. -/
def perCellFilePath (outPrefix : String) (cellid : ℕ) : String :=
  ospathJoin (simulationsDir outPrefix) ("E" ++ toString cellid ++ ".csv")

/-- Observable outcome of one Experiment run: how many cells were
simulated, how many per-cell files exist, whether ClusterIds.csv was
written, and the Python exception (if any) that aborted the run. -/
structure ExpRunResult where
  cellsSimulated : ℕ
  perCellFilesWritten : ℕ
  clusterIdsWritten : Bool
  errorMsg : Option String
deriving DecidableEq

/-- Control flow of Experiment (lines 98-222) as far as the claims
about exceptions and the clustering gate are concerned.  In order of
execution: line 101 references the undefined bare name proteinlist,
so a non-empty protein list raises a NameError before any simulation
(lines 98-103 run before the simulation loop of lines 162-178); the
simulations themselves and the per-cell file writes are modelled as
succeeding; the aggregation loop (lines 185-195) reads the per-cell
files and, when n_snapshots = 0, writes into groupedDict, which was
initialised (line 149) only when sample_cells is false, so with
sample_cells set and at least one cell a NameError is raised after
all per-cell files were written; with zero cells pd.concat on an
empty list (line 199) raises a ValueError; finally ClusterIds.csv is
written iff nClusters > 1 and n_snapshots = 0 (lines 205-217), with
the clustering call itself modelled as succeeding. -/
def ExperimentRun (proteinlist : List String) (sample_cells : Bool)
    (num_cells n_snapshots nClusters : ℕ) : ExpRunResult :=
  if proteinlist ≠ [] then
    { cellsSimulated := 0, perCellFilesWritten := 0, clusterIdsWritten := false,
      errorMsg := some "NameError: name proteinlist is not defined" }
  else if sample_cells ∧ n_snapshots = 0 ∧ 1 ≤ num_cells then
    { cellsSimulated := num_cells, perCellFilesWritten := num_cells,
      clusterIdsWritten := false,
      errorMsg := some "NameError: name groupedDict is not defined" }
  else if num_cells = 0 then
    { cellsSimulated := 0, perCellFilesWritten := 0, clusterIdsWritten := false,
      errorMsg := some "ValueError: No objects to concatenate" }
  else if 1 < nClusters ∧ n_snapshots = 0 then
    { cellsSimulated := num_cells, perCellFilesWritten := num_cells,
      clusterIdsWritten := true, errorMsg := none }
  else
    { cellsSimulated := num_cells, perCellFilesWritten := num_cells,
      clusterIdsWritten := false, errorMsg := none }

/-- Concrete attempt-outcome function used by the retry-loop
witnesses. -/
def trajMaxW : ℕ → ℚ := fun s => (s : ℚ)

/-- Concrete override map used by the initial-condition witness. -/
def icsW : String → Option ℚ := fun nm => if nm = "A" then some 5 else none

/-- A successful attempt makes the retry loop stop at exactly that
attempt, regardless of how much fuel remains. -/
theorem retryLoop_stops_at_good (trajMax : ℕ → ℚ) (x_max : ℚ) :
    ∀ k seed0, degeneracyThreshold x_max ≤ trajMax (seed0 + 1000 * (k + 1)) →
      ∃ seed, retryLoop trajMax x_max seed0 (k + 1) = some seed := by
  intro k
  induction k with
  | zero =>
    intro seed0 h
    have hc : ¬ trajMax (seed0 + 1000) < degeneracyThreshold x_max := by
      rw [not_lt]
      simpa using h
    exact ⟨seed0 + 1000, by simp [retryLoop, hc]⟩
  | succ n ih =>
    intro seed0 h
    by_cases hc : trajMax (seed0 + 1000) < degeneracyThreshold x_max
    · have h' : degeneracyThreshold x_max ≤ trajMax (seed0 + 1000 + 1000 * (n + 1)) := by
        have : seed0 + 1000 + 1000 * (n + 1) = seed0 + 1000 * (n + 1 + 1) := by ring
        rw [this]
        exact h
      obtain ⟨seed, hs⟩ := ih (seed0 + 1000) h'
      exact ⟨seed, by rw [retryLoop]; simpa [hc] using hs⟩
    · exact ⟨seed0 + 1000, by simp [retryLoop, hc]⟩

/-- Claim C1: the trajectory accepted by the degeneracy retry loop of
simulateAndSample always has maximal transcript value at least
0.1 * x_max: an attempt whose maximum is below the threshold is
always retried and never emitted, for any number of retries (any
fuel). -/
theorem C1_degeneracy_guard_threshold (trajMax : ℕ → ℚ) (x_max : ℚ) :
    ∀ fuel seed0 seed, retryLoop trajMax x_max seed0 fuel = some seed →
      degeneracyThreshold x_max ≤ trajMax seed := by
  intro fuel
  induction fuel with
  | zero =>
    intro seed0 seed h
    simp [retryLoop] at h
  | succ n ih =>
    intro seed0 seed h
    rw [retryLoop] at h
    by_cases hc : trajMax (seed0 + 1000) < degeneracyThreshold x_max
    · rw [if_pos hc] at h
      exact ih _ _ h
    · rw [if_neg hc] at h
      cases h
      exact not_lt.mp hc

/-- Witness for C1: with the identity attempt function and
x_max = 10000, one unit of fuel accepts seed 1000 and its value 1000
is indeed at least the threshold 1000. -/
theorem C1_witness : degeneracyThreshold 10000 ≤ trajMaxW 1000 :=
  C1_degeneracy_guard_threshold trajMaxW 10000 1 0 1000 (by
    have hc : ¬ trajMaxW (0 + 1000) < degeneracyThreshold 10000 := by
      rw [not_lt]
      norm_num [trajMaxW, degeneracyThreshold]
    simp [retryLoop, hc])

/-- Claim C10: the retry loop terminates whenever the sequence of
attempts, each using a seed deterministically perturbed by a further
increment of 1000, eventually contains a non-degenerate trajectory:
with fuel covering that attempt, the loop returns an accepted seed. -/
theorem C10_degeneracy_guard_terminates (trajMax : ℕ → ℚ) (x_max : ℚ) (seed0 : ℕ)
    (h : ∃ k, degeneracyThreshold x_max ≤ trajMax (seed0 + 1000 * (k + 1))) :
    ∃ fuel seed, retryLoop trajMax x_max seed0 fuel = some seed := by
  obtain ⟨k, hk⟩ := h
  obtain ⟨seed, hs⟩ := retryLoop_stops_at_good trajMax x_max k seed0 hk
  exact ⟨k + 1, seed, hs⟩

/-- Witness for C10: with the identity attempt function and
x_max = 10000, attempt 0 (seed 1000) already reaches the threshold,
and the loop indeed terminates. -/
theorem C10_witness : ∃ fuel seed, retryLoop trajMaxW 10000 0 fuel = some seed :=
  C10_degeneracy_guard_terminates trajMaxW 10000 0
    ⟨0, by norm_num [trajMaxW, degeneracyThreshold]⟩

/-- Claim C3: under the single-timepoint policy the emitted table has
exactly T - 1 columns, one per time index in 1..T-1, and index 0 is
never among the selected time points. -/
theorem C3_single_timepoint_columns (cellid T : ℕ) (P : ℕ → ℕ → ℚ)
    (rnaIndex : List ℕ) :
    (timePoints T).length = T - 1 ∧
    (singleTimepointColNames cellid T).length = T - 1 ∧
    (snapshotSubsetCols P rnaIndex (timePoints T)).length = T - 1 ∧
    (∀ t : ℕ, t ∈ timePoints T ↔ 1 ≤ t ∧ t < T) ∧
    0 ∉ timePoints T := by
  refine ⟨by simp [timePoints], by simp [singleTimepointColNames, timePoints],
    by simp [snapshotSubsetCols, timePoints], ?_, ?_⟩
  · intro t
    rw [timePoints, List.mem_range'_1]
    omega
  · rw [timePoints, List.mem_range'_1]
    omega

/-- Witness for C3: at T = 5 the single-timepoint table has 4 columns
and excludes time index 0. -/
theorem C3_witness :
    (timePoints 5).length = 4 ∧ 0 ∉ timePoints 5 ∧ (1 ∈ timePoints 5) :=
  ⟨(C3_single_timepoint_columns 0 5 (fun _ _ => 0) []).1,
   (C3_single_timepoint_columns 0 5 (fun _ _ => 0) []).2.2.2.2,
   ((C3_single_timepoint_columns 0 5 (fun _ _ => 0) []).2.2.2.1 1).mpr (by norm_num)⟩

/-- Claim C4: under the snapshot policy with n windows the emitted
table has exactly n columns, column i is named E cellid _t i, and
column i holds the transcript values at the index drawn for window
i. -/
theorem C4_snapshot_columns (cellid n : ℕ) (P : ℕ → ℕ → ℚ) (rnaIndex : List ℕ)
    (draw : ℕ → ℕ) :
    (snapshotColNames cellid n).length = n ∧
    (snapshotSubsetCols P rnaIndex (snapshotIndices draw n)).length = n ∧
    (∀ i, i < n →
      (snapshotColNames cellid n)[i]? =
        some ("E" ++ toString cellid ++ "_t" ++ toString i) ∧
      (snapshotSubsetCols P rnaIndex (snapshotIndices draw n))[i]? =
        some (rnaIndex.map (fun g => P g (draw i)))) := by
  refine ⟨by simp [snapshotColNames], by simp [snapshotSubsetCols, snapshotIndices], ?_⟩
  intro i hi
  constructor
  · simp [snapshotColNames, List.getElem?_map, List.getElem?_range, hi]
  · simp [snapshotSubsetCols, snapshotIndices, List.getElem?_map, List.getElem?_range, hi]

/-- Witness for C4: two windows give two columns; column 1 is named
E0_t1 and holds the transcript values at the drawn index of window
1. -/
theorem C4_witness :
    (snapshotColNames 0 2).length = 2 ∧
    (snapshotColNames 0 2)[1]? = some ("E" ++ toString 0 ++ "_t" ++ toString 1) ∧
    (snapshotSubsetCols (fun _ t => (t : ℚ)) [0] (snapshotIndices (fun i => i + 3) 2))[1]? =
      some [((4 : ℕ) : ℚ)] :=
  ⟨(C4_snapshot_columns 0 2 (fun _ t => (t : ℚ)) [0] (fun i => i + 3)).1,
   ((C4_snapshot_columns 0 2 (fun _ t => (t : ℚ)) [0] (fun i => i + 3)).2.2 1 (by norm_num)).1,
   ((C4_snapshot_columns 0 2 (fun _ t => (t : ℚ)) [0] (fun i => i + 3)).2.2 1 (by norm_num)).2⟩

/-- The gate of the ClusterIds.csv write in a full Experiment run:
accounting for the aborts that precede it, the file is produced
exactly when the protein list is empty, sample_cells is off, at least
one cell is requested, more than one cluster is requested and the
single-timepoint policy is active. -/
theorem experimentRun_clusterIds_iff (proteinlist : List String) (sample_cells : Bool)
    (num_cells n_snapshots nClusters : ℕ) :
    (ExperimentRun proteinlist sample_cells num_cells n_snapshots nClusters).clusterIdsWritten = true ↔
      (proteinlist = [] ∧ sample_cells = false ∧ 1 ≤ num_cells ∧
        1 < nClusters ∧ n_snapshots = 0) := by
  unfold ExperimentRun
  split_ifs with h1 h2 h3 h4 <;> simp_all
  omega

/-- Claim C6, corrected: the claimed equivalence (ClusterIds.csv is
produced iff nClusters > 1 and n_snapshots = 0) additionally needs
the run to survive until the clustering step: the protein list must
be empty, sample_cells must be off and at least one cell must be
simulated.  The backward half of the original claim is unconditional:
nClusters at most 1, or a positive n_snapshots, never produces the
file. -/
theorem C6_cluster_ids_gate (proteinlist : List String) (sample_cells : Bool)
    (num_cells n_snapshots nClusters : ℕ) :
    ((ExperimentRun proteinlist sample_cells num_cells n_snapshots nClusters).clusterIdsWritten = true ↔
      (proteinlist = [] ∧ sample_cells = false ∧ 1 ≤ num_cells ∧
        1 < nClusters ∧ n_snapshots = 0)) ∧
    ((nClusters ≤ 1 ∨ 1 ≤ n_snapshots) →
      (ExperimentRun proteinlist sample_cells num_cells n_snapshots nClusters).clusterIdsWritten = false) := by
  refine ⟨experimentRun_clusterIds_iff _ _ _ _ _, ?_⟩
  intro h
  rw [Bool.eq_false_iff]
  intro hc
  have := (experimentRun_clusterIds_iff proteinlist sample_cells num_cells
    n_snapshots nClusters).mp hc
  omega

/-- Counterexample for C6 as stated: with an empty protein list,
sample_cells on, one cell, n_snapshots = 0 and nClusters = 2 the run
aborts with a NameError before clustering, so ClusterIds.csv is not
produced although nClusters > 1 and n_snapshots = 0. -/
theorem C6_counterexample :
    ¬ (((ExperimentRun [] true 1 0 2).clusterIdsWritten = true) ↔
      (1 < 2 ∧ (0 : ℕ) = 0)) := by
  decide

/-- Witness for C6: a run with empty protein list, sample_cells off,
three cells, nClusters = 5 and n_snapshots = 0 produces the file; a
run with n_snapshots = 3 does not. -/
theorem C6_witness :
    (ExperimentRun [] false 3 0 5).clusterIdsWritten = true ∧
    (ExperimentRun [] true 7 3 9).clusterIdsWritten = false :=
  ⟨(C6_cluster_ids_gate [] false 3 0 5).1.mpr (by decide),
   (C6_cluster_ids_gate [] true 7 3 9).2 (Or.inr (by decide))⟩

/-- Claim C7: a non-empty protein list makes Experiment raise a
NameError (the bare name proteinlist on line 101 is undefined) before
any cell is simulated. -/
theorem C7_proteinlist_name_error (proteinlist : List String) (sample_cells : Bool)
    (num_cells n_snapshots nClusters : ℕ) (h : proteinlist ≠ []) :
    (ExperimentRun proteinlist sample_cells num_cells n_snapshots nClusters).errorMsg =
      some "NameError: name proteinlist is not defined" ∧
    (ExperimentRun proteinlist sample_cells num_cells n_snapshots nClusters).cellsSimulated = 0 := by
  simp [ExperimentRun, h]

/-- Witness for C7: a model with one protein aborts with the
NameError and zero simulated cells. -/
theorem C7_witness :
    (ExperimentRun ["g1"] true 3 0 2).errorMsg =
      some "NameError: name proteinlist is not defined" ∧
    (ExperimentRun ["g1"] true 3 0 2).cellsSimulated = 0 :=
  C7_proteinlist_name_error ["g1"] true 3 0 2 (by decide)

/-- Claim C8: with sample_cells on and n_snapshots = 0 (and at least
one cell, as the configuration contract requires), Experiment raises
a NameError in the aggregation phase because groupedDict is only
initialised when sample_cells is off, and this happens after every
per-cell file has been written. -/
theorem C8_grouped_dict_name_error (num_cells nClusters : ℕ) (h : 1 ≤ num_cells) :
    (ExperimentRun [] true num_cells 0 nClusters).errorMsg =
      some "NameError: name groupedDict is not defined" ∧
    (ExperimentRun [] true num_cells 0 nClusters).perCellFilesWritten = num_cells ∧
    (ExperimentRun [] true num_cells 0 nClusters).cellsSimulated = num_cells := by
  simp [ExperimentRun, h]

/-- Witness for C8: two cells with sample_cells on and n_snapshots
= 0 write both per-cell files and then abort with the NameError. -/
theorem C8_witness :
    (ExperimentRun [] true 2 0 1).errorMsg =
      some "NameError: name groupedDict is not defined" ∧
    (ExperimentRun [] true 2 0 1).perCellFilesWritten = 2 ∧
    (ExperimentRun [] true 2 0 1).cellsSimulated = 2 :=
  C8_grouped_dict_name_error 2 1 (by decide)

/-- The fractional part of a rational lies in the half-open unit
interval. -/
theorem fract_bounds (q : ℚ) : 0 ≤ q - ⌊q⌋ ∧ q - ⌊q⌋ < 1 := by
  constructor
  · have := Int.floor_le q
    linarith
  · have := Int.lt_floor_add_one q
    linarith

/-- Round half to even never rounds up by more than one half. -/
theorem roundHalfEven_le (q : ℚ) : (roundHalfEven q : ℚ) ≤ q + 1 / 2 := by
  obtain ⟨h0, h1⟩ := fract_bounds q
  unfold roundHalfEven
  split_ifs <;> push_cast <;> linarith

/-- Round half to even never rounds down by more than one half. -/
theorem le_roundHalfEven (q : ℚ) : q - 1 / 2 ≤ (roundHalfEven q : ℚ) := by
  obtain ⟨h0, h1⟩ := fract_bounds q
  unfold roundHalfEven
  split_ifs <;> push_cast <;> linarith

/-- For a non-half-integer the upper rounding bound is strict. -/
theorem roundHalfEven_lt (q : ℚ) (h : q - ⌊q⌋ ≠ 1 / 2) :
    (roundHalfEven q : ℚ) < q + 1 / 2 := by
  obtain ⟨h0, h1⟩ := fract_bounds q
  have h2 : q - ⌊q⌋ < 1 / 2 ∨ 1 / 2 < q - ⌊q⌋ := lt_or_gt_of_ne h
  unfold roundHalfEven
  split_ifs <;> push_cast <;> rcases h2 with h2 | h2 <;> linarith

/-- For a non-half-integer the lower rounding bound is strict. -/
theorem lt_roundHalfEven (q : ℚ) (h : q - ⌊q⌋ ≠ 1 / 2) :
    q - 1 / 2 < (roundHalfEven q : ℚ) := by
  obtain ⟨h0, h1⟩ := fract_bounds q
  have h2 : q - ⌊q⌋ < 1 / 2 ∨ 1 / 2 < q - ⌊q⌋ := lt_or_gt_of_ne h
  unfold roundHalfEven
  split_ifs <;> push_cast <;> rcases h2 with h2 | h2 <;> linarith

/-- Rounding two points at distance at least one, not both exact
half-integers, preserves strict order. -/
theorem roundHalfEven_mono_strict (a b : ℚ) (hab : a + 1 ≤ b)
    (h : ¬(a - ⌊a⌋ = 1 / 2 ∧ b - ⌊b⌋ = 1 / 2)) :
    roundHalfEven a < roundHalfEven b := by
  by_cases ha : a - ⌊a⌋ = 1 / 2
  · have hb : b - ⌊b⌋ ≠ 1 / 2 := fun hb => h ⟨ha, hb⟩
    have h1 := roundHalfEven_le a
    have h2 := lt_roundHalfEven b hb
    exact_mod_cast show (roundHalfEven a : ℚ) < roundHalfEven b by linarith
  · have h1 := roundHalfEven_lt a ha
    have h2 := le_roundHalfEven b
    exact_mod_cast show (roundHalfEven a : ℚ) < roundHalfEven b by linarith

/-- Round half to even fixes the integers. -/
theorem roundHalfEven_intCast (z : ℤ) : roundHalfEven (z : ℚ) = z := by
  unfold roundHalfEven
  rw [Int.floor_intCast]
  norm_num

/-- Two consecutive linspace points cannot both be half-integers: if
they were, their distance steps over n would be an integer, making
the points themselves integers. -/
theorem linspace_not_both_half (s n i : ℕ) :
    ¬((i : ℚ) * s / n - ⌊(i : ℚ) * s / n⌋ = 1 / 2 ∧
      ((i + 1 : ℕ) : ℚ) * s / n - ⌊((i + 1 : ℕ) : ℚ) * s / n⌋ = 1 / 2) := by
  rintro ⟨ha, hb⟩
  set a := (i : ℚ) * s / n with hadef
  set b := ((i + 1 : ℕ) : ℚ) * s / n with hbdef
  have hd : b - a = (s : ℚ) / n := by
    rw [hadef, hbdef]
    push_cast
    ring
  have hsn : (s : ℚ) / n = ((⌊b⌋ - ⌊a⌋ : ℤ) : ℚ) := by
    push_cast
    linarith
  have haid : a = (i : ℚ) * ((⌊b⌋ - ⌊a⌋ : ℤ) : ℚ) := by
    rw [← hsn, hadef]
    ring
  have hkey : ((2 * ((i : ℤ) * (⌊b⌋ - ⌊a⌋)) : ℤ) : ℚ) = ((2 * ⌊a⌋ + 1 : ℤ) : ℚ) := by
    push_cast
    push_cast at haid
    linarith
  have := Int.cast_injective (α := ℚ) hkey
  omega

/-- Consecutive snapshot boundary points strictly increase whenever
the trajectory has at least as many steps as windows. -/
theorem snapshotLimits_succ_lt (steps n : ℕ) (hn : 1 ≤ n) (hs : n ≤ steps) (i : ℕ) :
    snapshotLimits steps n i < snapshotLimits steps n (i + 1) := by
  unfold snapshotLimits
  apply roundHalfEven_mono_strict
  · have hnq : (0 : ℚ) < (n : ℚ) := by exact_mod_cast hn
    have h1 : (1 : ℚ) ≤ (steps : ℚ) / n := by
      rw [le_div_iff₀ hnq, one_mul]
      exact_mod_cast hs
    have h2 : ((i + 1 : ℕ) : ℚ) * steps / n = (i : ℚ) * steps / n + (steps : ℚ) / n := by
      push_cast
      ring
    linarith
  · exact linspace_not_both_half steps n i

/-- The snapshot boundary points are strictly monotone. -/
theorem snapshotLimits_strictMono (steps n : ℕ) (hn : 1 ≤ n) (hs : n ≤ steps) :
    StrictMono (snapshotLimits steps n) :=
  strictMono_nat_of_lt_succ (snapshotLimits_succ_lt steps n hn hs)

/-- The first snapshot boundary point is 0. -/
theorem snapshotLimits_zero (steps n : ℕ) : snapshotLimits steps n 0 = 0 := by
  have h : ((0 : ℕ) : ℚ) * steps / n = ((0 : ℤ) : ℚ) := by
    push_cast
    ring
  rw [snapshotLimits, h, roundHalfEven_intCast]

/-- The last snapshot boundary point is the step count. -/
theorem snapshotLimits_last (steps n : ℕ) (hn : 1 ≤ n) :
    snapshotLimits steps n n = steps := by
  have hnq : (n : ℚ) ≠ 0 := Nat.cast_ne_zero.mpr (by omega)
  have h : ((n : ℕ) : ℚ) * steps / n = ((steps : ℤ) : ℚ) := by
    push_cast
    field_simp
  rw [snapshotLimits, h, roundHalfEven_intCast]

/-- Discrete intermediate value: a value between the first and last
entry of an integer sequence falls in some consecutive gap. -/
theorem exists_gap (f : ℕ → ℤ) :
    ∀ n t, f 0 ≤ t → t < f n → ∃ i, i < n ∧ f i ≤ t ∧ t < f (i + 1) := by
  intro n
  induction n with
  | zero =>
    intro t h0 h1
    exact absurd (h0.trans_lt h1) (lt_irrefl _)
  | succ m ih =>
    intro t h0 h1
    by_cases hm : f m ≤ t
    · exact ⟨m, Nat.lt_succ_self m, hm, h1⟩
    · obtain ⟨i, hi, hw⟩ := ih t h0 (not_le.mp hm)
      exact ⟨i, hi.trans (Nat.lt_succ_self m), hw⟩

/-- Claim C2, corrected: for every n at least 1 and T at least n + 1,
the n half-open windows between the rounded boundary points of
np.linspace(0, T-1, n+1) are pairwise disjoint and their union covers
exactly the integer time indices in the half-open range from 0 to
T-1, that is 0..T-2; the original claim asserted coverage of the
closed range up to T-1, but index T-1 lies in no window. -/
theorem C2_snapshot_windows_partition (T n : ℕ) (hn : 1 ≤ n) (hT : n + 1 ≤ T) :
    (∀ t : ℤ, (∃ i, i < n ∧ inWindow (T - 1) n i t) ↔ (0 ≤ t ∧ t < (T : ℤ) - 1)) ∧
    (∀ t : ℤ, ∀ i j, i < j → j < n →
      inWindow (T - 1) n i t → inWindow (T - 1) n j t → False) := by
  have hs : n ≤ T - 1 := by omega
  have hmono := snapshotLimits_strictMono (T - 1) n hn hs
  have hcast : (((T - 1 : ℕ)) : ℤ) = (T : ℤ) - 1 := by
    have : 1 ≤ T := by omega
    push_cast [this]
    ring
  constructor
  · intro t
    constructor
    · rintro ⟨i, hi, h1, h2⟩
      constructor
      · have h0 : snapshotLimits (T - 1) n 0 ≤ snapshotLimits (T - 1) n i :=
          hmono.monotone (Nat.zero_le i)
        rw [snapshotLimits_zero] at h0
        linarith
      · have hlast : snapshotLimits (T - 1) n (i + 1) ≤ snapshotLimits (T - 1) n n :=
          hmono.monotone hi
        rw [snapshotLimits_last (T - 1) n hn] at hlast
        rw [← hcast]
        linarith
    · rintro ⟨h0, h1⟩
      obtain ⟨i, hi, hw⟩ := exists_gap (snapshotLimits (T - 1) n) n t
        (by rw [snapshotLimits_zero]; exact h0)
        (by rw [snapshotLimits_last (T - 1) n hn, hcast]; exact h1)
      exact ⟨i, hi, hw⟩
  · rintro t i j hij hj ⟨hi1, hi2⟩ ⟨hj1, hj2⟩
    have : snapshotLimits (T - 1) n (i + 1) ≤ snapshotLimits (T - 1) n j :=
      hmono.monotone hij
    linarith

/-- Counterexample for C2 as stated: with T = 3 and n = 1 the single
window is the half-open range from boundary 0 to boundary 2, so the
integer index 2 = T - 1, although inside the closed range claimed to
be covered, lies in no window. -/
theorem C2_counterexample :
    (0 ≤ (2 : ℤ) ∧ (2 : ℤ) ≤ (3 : ℤ) - 1) ∧
    ¬ ∃ i, i < 1 ∧ inWindow (3 - 1) 1 i 2 := by
  have hlim : snapshotLimits 2 1 1 = 2 := by
    have h : ((1 : ℕ) : ℚ) * (2 : ℕ) / (1 : ℕ) = ((2 : ℤ) : ℚ) := by
      push_cast
      norm_num
    rw [snapshotLimits, h, roundHalfEven_intCast]
  constructor
  · norm_num
  · rintro ⟨i, hi, h1, h2⟩
    interval_cases i
    rw [hlim] at h2
    exact absurd h2 (by norm_num)

/-- Witness for C2: at T = 5, n = 2 the two windows exactly cover the
indices 0..3 with no overlap. -/
theorem C2_witness :
    (∀ t : ℤ, (∃ i, i < 2 ∧ inWindow (5 - 1) 2 i t) ↔ (0 ≤ t ∧ t < (5 : ℤ) - 1)) ∧
    (∀ t : ℤ, ∀ i j, i < j → j < 2 →
      inWindow (5 - 1) 2 i t → inWindow (5 - 1) 2 j t → False) :=
  C2_snapshot_windows_partition 5 2 (by norm_num) (by norm_num)

/-- Unfolding of an Option foldlM over an empty list. -/
theorem foldlM_option_nil (f : List ℚ → String → Option (List ℚ)) (b : List ℚ) :
    List.foldlM f b ([] : List String) = some b := rfl

/-- Unfolding of an Option foldlM over a cons. -/
theorem foldlM_option_cons (f : List ℚ → String → Option (List ℚ)) (b : List ℚ)
    (a : String) (l : List String) :
    List.foldlM f b (a :: l) = f b a >>= fun b2 => List.foldlM f b2 l := rfl

/-- Monadic bind of a present Option value. -/
theorem option_bind_some (x : List ℚ) (f : List ℚ → Option (List ℚ)) :
    (some x >>= f) = f x := rfl

/-- Monadic bind of an absent Option value. -/
theorem option_bind_none (f : List ℚ → Option (List ℚ)) :
    ((none : Option (List ℚ)) >>= f) = none := rfl

/-- Projection form of bind of a present Option value. -/
theorem option_dot_bind_some (x : List ℚ) (f : List ℚ → Option (List ℚ)) :
    (Option.some x).bind f = f x := rfl

/-- Projection form of bind of an absent Option value. -/
theorem option_dot_bind_none (f : List ℚ → Option (List ℚ)) :
    (Option.none : Option (List ℚ)).bind f = none := rfl

/-- The character data of an appended string is the appended data. -/
theorem string_data_append (s t : String) : (s ++ t).data = s.data ++ t.data := by
  cases s
  cases t
  rfl

/-- Appending to a fixed string on the left is injective. -/
theorem string_append_cancel (pre a b : String) (h : pre ++ a = pre ++ b) : a = b := by
  have hd := congrArg String.data h
  rw [string_data_append, string_data_append] at hd
  have hd2 := List.append_cancel_left hd
  cases a
  cases b
  exact congrArg String.mk hd2

/-- A gene variable name never coincides with a protein variable
name: the two prefixes differ in their first character. -/
theorem xname_ne_pname (g p : String) : "x_" ++ g ≠ "p_" ++ p := by
  intro h
  have hd := congrArg String.data h
  rw [string_data_append, string_data_append] at hd
  have hx : "x_".data = ['x', '_'] := rfl
  have hp : "p_".data = ['p', '_'] := rfl
  rw [hx, hp] at hd
  simp at hd

/-- A successful reverse-map lookup returns an index holding exactly
the requested name. -/
theorem revIdx_some :
    ∀ (vm : List String) (name : String) (j : ℕ),
      revIdx vm name = some j → vm[j]? = some name := by
  intro vm
  induction vm with
  | nil =>
    intro name j h
    simp [revIdx] at h
  | cons k ks ih =>
    intro name j h
    rw [revIdx] at h
    cases hrec : revIdx ks name with
    | some j2 =>
      rw [hrec] at h
      cases h
      simpa using ih name j2 hrec
    | none =>
      rw [hrec] at h
      by_cases hk : k = name
      · rw [if_pos hk] at h
        cases h
        simp [hk]
      · rw [if_neg hk] at h
        cases h

/-- A successful reverse-map lookup returns an index inside the
variable list. -/
theorem revIdx_lt_length (vm : List String) (name : String) (j : ℕ)
    (h : revIdx vm name = some j) : j < vm.length := by
  have hb := revIdx_some vm name j h
  by_contra hc
  rw [List.getElem?_eq_none (by omega)] at hb
  cases hb

/-- One species override loop leaves the vector length unchanged. -/
theorem setSpecies_length (vm : List String) (pre : String) :
    ∀ (names : List String) (icsmap : String → Option ℚ) (ss ss2 : List ℚ),
      setSpecies vm pre names icsmap ss = some ss2 → ss2.length = ss.length := by
  intro names
  induction names with
  | nil =>
    intro icsmap ss ss2 h
    rw [setSpecies, foldlM_option_nil] at h
    cases h
    rfl
  | cons nm rest ih =>
    intro icsmap ss ss2 h
    rw [setSpecies, foldlM_option_cons] at h
    cases hrev : revIdx vm (pre ++ nm) with
    | none =>
      rw [hrev] at h
      rw [show ((none : Option ℕ).map fun i =>
        ss.set i ((icsmap nm).getD icsDefault)) = none from rfl, option_bind_none] at h
      cases h
    | some i =>
      rw [hrev] at h
      rw [show ((some i).map fun i =>
        ss.set i ((icsmap nm).getD icsDefault)) =
          some (ss.set i ((icsmap nm).getD icsDefault)) from rfl,
        option_bind_some] at h
      have := ih icsmap (ss.set i ((icsmap nm).getD icsDefault)) ss2 h
      simpa using this

/-- Indices not targeted by any name of the loop keep their value. -/
theorem setSpecies_preserve (vm : List String) (pre : String) :
    ∀ (names : List String) (icsmap : String → Option ℚ) (ss ss2 : List ℚ) (j : ℕ),
      setSpecies vm pre names icsmap ss = some ss2 →
      (∀ nm ∈ names, revIdx vm (pre ++ nm) ≠ some j) →
      ss2[j]? = ss[j]? := by
  intro names
  induction names with
  | nil =>
    intro icsmap ss ss2 j h hnone
    rw [setSpecies, foldlM_option_nil] at h
    cases h
    rfl
  | cons nm rest ih =>
    intro icsmap ss ss2 j h hnone
    rw [setSpecies, foldlM_option_cons] at h
    cases hrev : revIdx vm (pre ++ nm) with
    | none =>
      rw [hrev] at h
      rw [show ((none : Option ℕ).map fun i =>
        ss.set i ((icsmap nm).getD icsDefault)) = none from rfl, option_bind_none] at h
      cases h
    | some i =>
      rw [hrev] at h
      rw [show ((some i).map fun i =>
        ss.set i ((icsmap nm).getD icsDefault)) =
          some (ss.set i ((icsmap nm).getD icsDefault)) from rfl,
        option_bind_some] at h
      have hij : i ≠ j := by
        intro hij
        exact hnone nm (List.mem_cons_self nm rest) (by rw [← hij]; exact hrev)
      have hpres := ih icsmap (ss.set i ((icsmap nm).getD icsDefault)) ss2 j h
        (fun nm2 hm => hnone nm2 (List.mem_cons_of_mem _ hm))
      rw [hpres, List.getElem?_set]
      simp [hij]

/-- A name of the loop whose lookup hits index j leaves the override
value at j once the loop is done. -/
theorem setSpecies_write (vm : List String) (pre : String)
    (hpre : ∀ nm nm2 : String, pre ++ nm = pre ++ nm2 → nm = nm2) :
    ∀ (names : List String) (icsmap : String → Option ℚ) (ss ss2 : List ℚ)
      (nm : String) (j : ℕ),
      setSpecies vm pre names icsmap ss = some ss2 →
      nm ∈ names →
      revIdx vm (pre ++ nm) = some j →
      j < ss.length →
      ss2[j]? = some ((icsmap nm).getD icsDefault) := by
  intro names
  induction names with
  | nil =>
    intro icsmap ss ss2 nm j h hmem hrev hjlen
    simp at hmem
  | cons nm0 rest ih =>
    intro icsmap ss ss2 nm j h hmem hrev hjlen
    rw [setSpecies, foldlM_option_cons] at h
    cases hrev0 : revIdx vm (pre ++ nm0) with
    | none =>
      rw [hrev0] at h
      rw [show ((none : Option ℕ).map fun i =>
        ss.set i ((icsmap nm0).getD icsDefault)) = none from rfl, option_bind_none] at h
      cases h
    | some i =>
      rw [hrev0] at h
      rw [show ((some i).map fun i =>
        ss.set i ((icsmap nm0).getD icsDefault)) =
          some (ss.set i ((icsmap nm0).getD icsDefault)) from rfl,
        option_bind_some] at h
      by_cases hmr : nm ∈ rest
      · exact ih icsmap _ ss2 nm j h hmr hrev (by simpa using hjlen)
      · have hnm : nm = nm0 := by
          rcases List.mem_cons.mp hmem with h1 | h1
          · exact h1
          · exact absurd h1 hmr
        subst hnm
        have hij : i = j := Option.some.inj (hrev0.symm.trans hrev)
        subst hij
        have hpres : ss2[i]? = (ss.set i ((icsmap nm).getD icsDefault))[i]? := by
          apply setSpecies_preserve vm pre rest icsmap _ ss2 i h
          intro nm2 hm2 hcontra
          have h1 := revIdx_some vm (pre ++ nm2) i hcontra
          have h2 := revIdx_some vm (pre ++ nm) i hrev
          rw [h1] at h2
          have := hpre nm2 nm (Option.some.inj h2)
          rw [this] at hm2
          exact hmr hm2
        rw [hpres, List.getElem?_set]
        simp [hjlen]

/-- One full override pass leaves the vector length unchanged. -/
theorem icsPass_length (vm pl gl : List String) (icsmap : String → Option ℚ)
    (ss ss2 : List ℚ) (h : icsPass vm pl gl icsmap ss = some ss2) :
    ss2.length = ss.length := by
  rcases hmid : setSpecies vm "p_" pl icsmap ss with _ | s1
  · rw [icsPass, hmid, option_dot_bind_none] at h
    cases h
  · rw [icsPass, hmid, option_dot_bind_some] at h
    have h1 := setSpecies_length vm "p_" pl icsmap ss s1 hmid
    have h2 := setSpecies_length vm "x_" gl icsmap s1 ss2 h
    omega

/-- After one full override pass, a gene of the gene list holds its
override value (or the 0.01 default) at its reverse-map index. -/
theorem icsPass_gene (vm pl gl : List String) (icsmap : String → Option ℚ)
    (ss ss2 : List ℚ) (g : String) (j : ℕ)
    (h : icsPass vm pl gl icsmap ss = some ss2)
    (hg : g ∈ gl) (hrev : revIdx vm ("x_" ++ g) = some j)
    (hlen : vm.length ≤ ss.length) :
    ss2[j]? = some ((icsmap g).getD icsDefault) := by
  rcases hmid : setSpecies vm "p_" pl icsmap ss with _ | s1
  · rw [icsPass, hmid, option_dot_bind_none] at h
    cases h
  · rw [icsPass, hmid, option_dot_bind_some] at h
    have hjlen : j < s1.length := by
      have hj := revIdx_lt_length vm _ j hrev
      have hl := setSpecies_length vm "p_" pl icsmap ss s1 hmid
      omega
    exact setSpecies_write vm "x_" (fun a b => string_append_cancel "x_" a b)
      gl icsmap s1 ss2 g j h hg hrev hjlen

/-- After one full override pass, a protein of the protein list holds
its override value (or the 0.01 default) at its reverse-map index;
the subsequent gene loop cannot overwrite it because gene and protein
names never clash. -/
theorem icsPass_protein (vm pl gl : List String) (icsmap : String → Option ℚ)
    (ss ss2 : List ℚ) (p : String) (j : ℕ)
    (h : icsPass vm pl gl icsmap ss = some ss2)
    (hp : p ∈ pl) (hrev : revIdx vm ("p_" ++ p) = some j)
    (hlen : vm.length ≤ ss.length) :
    ss2[j]? = some ((icsmap p).getD icsDefault) := by
  rcases hmid : setSpecies vm "p_" pl icsmap ss with _ | s1
  · rw [icsPass, hmid, option_dot_bind_none] at h
    cases h
  · rw [icsPass, hmid, option_dot_bind_some] at h
    have hjlen : j < ss.length := by
      have hj := revIdx_lt_length vm _ j hrev
      omega
    have h1 := setSpecies_write vm "p_" (fun a b => string_append_cancel "p_" a b)
      pl icsmap ss s1 p j hmid hp hrev hjlen
    have h2 : ss2[j]? = s1[j]? := by
      apply setSpecies_preserve vm "x_" gl icsmap s1 ss2 j h
      intro g hg hcontra
      have ha := revIdx_some vm ("x_" ++ g) j hcontra
      have hb := revIdx_some vm ("p_" ++ p) j hrev
      rw [ha] at hb
      exact xname_ne_pname g p (Option.some.inj hb)
    rw [h2, h1]

/-- A length-preserving step iterated over a list either leaves the
start value untouched or ends with one final application of the step
to some intermediate value of the same length. -/
theorem foldPass_last (step : List ℚ → Option (List ℚ))
    (hstep : ∀ a b, step a = some b → b.length = a.length) :
    ∀ (l : List String) (ss ss2 : List ℚ),
      List.foldlM (fun acc _ => step acc) ss l = some ss2 →
      ss2 = ss ∨ ∃ ss0, ss0.length = ss.length ∧ step ss0 = some ss2 := by
  intro l
  induction l with
  | nil =>
    intro ss ss2 h
    rw [foldlM_option_nil] at h
    exact Or.inl (Option.some.inj h).symm
  | cons a l ih =>
    intro ss ss2 h
    rw [foldlM_option_cons] at h
    rcases hstep1 : step ss with _ | s1
    · rw [hstep1, option_bind_none] at h
      cases h
    · rw [hstep1, option_bind_some] at h
      rcases ih s1 ss2 h with h1 | ⟨ss0, hl, hs⟩
      · exact Or.inr ⟨ss, rfl, by rw [h1]; exact hstep1⟩
      · exact Or.inr ⟨ss0, hl.trans (hstep ss s1 hstep1), hs⟩

/-- Over a non-empty list the iteration always ends with a final
application of the step. -/
theorem foldPass_last_cons (step : List ℚ → Option (List ℚ))
    (hstep : ∀ a b, step a = some b → b.length = a.length)
    (a : String) (l : List String) (ss ss2 : List ℚ)
    (h : List.foldlM (fun acc _ => step acc) ss (a :: l) = some ss2) :
    ∃ ss0, ss0.length = ss.length ∧ step ss0 = some ss2 := by
  rw [foldlM_option_cons] at h
  rcases hstep1 : step ss with _ | s1
  · rw [hstep1, option_bind_none] at h
    cases h
  · rw [hstep1, option_bind_some] at h
    rcases foldPass_last step hstep l s1 ss2 h with h1 | ⟨ss0, hl, hs⟩
    · exact ⟨ss, rfl, by rw [h1]; exact hstep1⟩
    · exact ⟨ss0, hl.trans (hstep ss s1 hstep1), hs⟩

/-- Claim C5: with an empty override table the base vector holds 1.0
at every transcript variable (name containing the substring
x underscore) and 20.0 at every protein variable (name containing
p underscore, no x underscore, and whose stripped name is in the
protein list, per the well-formedness contract of the variable map);
with a non-empty override table, every gene and protein named in the
override map holds its specified value at its reverse-map index and
every one not named holds the 0.01 default. -/
theorem C5_initial_condition_vector (varmapper proteinlist genelist : List String)
    (icsmap : String → Option ℚ) :
    (∀ (i : ℕ) (k : String), varmapper[i]? = some k →
      (containsSub "x_" k = true → (baseSS varmapper proteinlist)[i]? = some 1) ∧
      (containsSub "x_" k = false → containsSub "p_" k = true →
        removeAll "p_" k ∈ proteinlist → (baseSS varmapper proteinlist)[i]? = some 20)) ∧
    buildSS varmapper proteinlist genelist true icsmap = some (baseSS varmapper proteinlist) ∧
    (∀ ss2, buildSS varmapper proteinlist genelist false icsmap = some ss2 →
      (∀ g j, g ∈ genelist → revIdx varmapper ("x_" ++ g) = some j →
        ss2[j]? = some ((icsmap g).getD icsDefault)) ∧
      (∀ p j, p ∈ proteinlist → revIdx varmapper ("p_" ++ p) = some j →
        ss2[j]? = some ((icsmap p).getD icsDefault))) := by
  refine ⟨?_, by simp [buildSS], ?_⟩
  · intro i k hik
    constructor
    · intro hx
      simp [baseSS, List.getElem?_map, hik, hx]
    · intro hx hp hmem
      simp [baseSS, List.getElem?_map, hik, hx, hp, hmem]
  · intro ss2 h
    simp only [buildSS, Bool.false_eq_true, if_false] at h
    cases hvm : varmapper with
    | nil =>
      constructor
      · intro g j _ hrev
        simp [revIdx] at hrev
      · intro p j _ hrev
        simp [revIdx] at hrev
    | cons v vs =>
      rw [hvm] at h
      obtain ⟨ss0, hl, hpass⟩ := foldPass_last_cons
        (icsPass (v :: vs) proteinlist genelist icsmap)
        (fun a b hab => icsPass_length _ _ _ _ a b hab) v vs
        (baseSS (v :: vs) proteinlist) ss2 h
      have hlen0 : (v :: vs).length ≤ ss0.length := by
        rw [hl]
        simp [baseSS]
      constructor
      · intro g j hg hrev
        exact icsPass_gene _ _ _ icsmap ss0 ss2 g j hpass hg hrev hlen0
      · intro p j hp hrev
        exact icsPass_protein _ _ _ icsmap ss0 ss2 p j hpass hp hrev hlen0

/-- Witness for C5: on the model with transcript variable x_A and
protein variable p_B, protein list B and gene list A, the base
vector is 1.0 at x_A and 20.0 at p_B; with the override map assigning
5 to A only, the run maps A to 5 and B to the 0.01 default. -/
theorem C5_witness :
    (baseSS ["x_A", "p_B"] ["B"])[0]? = some 1 ∧
    (baseSS ["x_A", "p_B"] ["B"])[1]? = some 20 ∧
    ([(5 : ℚ), icsDefault] : List ℚ)[0]? = some ((icsW "A").getD icsDefault) ∧
    ([(5 : ℚ), icsDefault] : List ℚ)[1]? = some ((icsW "B").getD icsDefault) := by
  have hthm := C5_initial_condition_vector ["x_A", "p_B"] ["B"] ["A"] icsW
  refine ⟨?_, ?_, ?_, ?_⟩
  · exact (hthm.1 0 "x_A" rfl).1 rfl
  · exact (hthm.1 1 "p_B" rfl).2 rfl rfl (by rw [show removeAll "p_" "p_B" = "B" from rfl]; simp)
  · exact (hthm.2.2 [(5 : ℚ), icsDefault] rfl).1 "A" 0 (by simp) rfl
  · exact (hthm.2.2 [(5 : ℚ), icsDefault] rfl).2 "B" 1 (by simp) rfl

/-- Claim C9 (code bug): line 383 concatenates the simulations
directory and the file name without a path separator, so the sampled
single-cell file lands next to the simulations directory as
outprefix/simulationsE cellid -cell.csv instead of inside it; the
per-cell file of line 405, by contrast, is correctly joined into the
directory. -/
theorem C9_sampled_cell_path :
    sampledCellFilePath "out" 0 = "out/simulationsE0-cell.csv" ∧
    sampledCellFilePath "out" 0 ≠ "out/simulations/E0-cell.csv" ∧
    perCellFilePath "out" 0 = "out/simulations/E0.csv" := by
  refine ⟨by decide, by decide, by decide⟩

end BoolODE
